import Mathlib

/-!
# Verification of the scene composition and interaction engine

Shallow embedding, over `ℚ`, of the core of the Oil-Gas-CodeFirst repository:
the focus/highlight protocol, the explode/assemble state machine, the flare
puff emitter, the telemetry smoothing loop and the rotating-equipment
kinematics, as implemented in `ThreeDashboard.tsx`, `AssemblyExplodedScene.tsx`
and `SupportPortal.tsx`.

Scalars are modelled as rationals; `Math.sin` and `Math.random` values are
abstracted as explicitly bounded parameters.
-/

/-! ## Colors (THREE.Color)

`Color.ofHex` mirrors `Color.setHex` / `new THREE.Color(hex)`: each channel is
the corresponding byte of the 24-bit value divided by 255.  `Color.getHex`
mirrors `THREE.Color.getHex`: each channel is scaled by 255, rounded, and the
bytes are reassembled.  `Color.lerp` mirrors `THREE.Color.lerp`. -/

structure Color where
  r : ℚ
  g : ℚ
  b : ℚ
deriving DecidableEq

/-- Rounding to the nearest integer, as `Math.round` does on the exact values
that arise here. -/
def qround (x : ℚ) : ℤ := ⌊x + 1/2⌋

def Color.ofHex (h : ℕ) : Color :=
  ⟨((h / 65536 % 256 : ℕ) : ℚ) / 255, ((h / 256 % 256 : ℕ) : ℚ) / 255, ((h % 256 : ℕ) : ℚ) / 255⟩

def Color.getHex (c : Color) : ℕ :=
  (qround (c.r * 255)).toNat * 65536 + (qround (c.g * 255)).toNat * 256 + (qround (c.b * 255)).toNat

def Color.lerp (c d : Color) (a : ℚ) : Color :=
  ⟨c.r + (d.r - c.r) * a, c.g + (d.g - c.g) * a, c.b + (d.b - c.b) * a⟩

theorem qround_natCast (k : ℕ) : qround (k : ℚ) = k := by
  unfold qround
  rw [Int.floor_eq_iff]
  constructor <;> push_cast <;> linarith

theorem qround_byte (k : ℕ) : qround (((k : ℚ) / 255) * 255) = k := by
  rw [div_mul_cancel₀ _ (by norm_num : (255:ℚ) ≠ 0)]
  exact qround_natCast k

/-- `getHex` is a left inverse of `ofHex` on 24-bit values: capturing a
hex-initialised emissive color and restoring it is exact. -/
theorem Color.getHex_ofHex (h : ℕ) (hh : h < 2 ^ 24) : (Color.ofHex h).getHex = h := by
  unfold Color.ofHex Color.getHex
  simp only [qround_byte, Int.toNat_natCast]
  omega

/-! ## Materials and the focus/highlight protocol

`Material` models the emissive state of a `MeshStandardMaterial` together with
the `userData.__origE` / `__origEI` capture slots (written together by both
scenes, so modelled as one `Option`).  The two scenes' focus `useEffect`s share
the same shape: first revert every part whose materials carry a captured
original, then, if the focus key resolves via `parts.find`, apply the scene's
highlight to that part's materials. -/

structure Material where
  emissive : Color
  emissiveIntensity : ℚ
  orig : Option (ℕ × ℚ)
deriving DecidableEq

/-- A freshly constructed material (`new MeshStandardMaterial({ emissive: h,
emissiveIntensity: i })`): no capture yet. -/
def Material.fresh (h : ℕ) (i : ℚ) : Material :=
  ⟨Color.ofHex h, i, none⟩

/-- The reset pass of both focus effects: if `__origE !== undefined`, restore
`emissive.setHex(origE)` and `emissiveIntensity = origEI`. -/
def revertMaterial (m : Material) : Material :=
  match m.orig with
  | none => m
  | some o => { m with emissive := Color.ofHex o.1, emissiveIntensity := o.2 }

/-- The capture step: `__origE = emissive.getHex()`, `__origEI =
emissiveIntensity` if not yet captured, else the existing capture. -/
def Material.captured (m : Material) : ℕ × ℚ :=
  m.orig.getD (m.emissive.getHex, m.emissiveIntensity)

/-- Warm amber highlight hue of `AssemblyExplodedScene`. -/
def highlightHex : ℕ := 0xffa640

/-- `AssemblyExplodedScene` highlight application: capture the original if
needed, blend it 65% toward the highlight hue, and set the intensity to
`min(origEI + 0.25, 0.75)`. -/
def applyHighlightAssembly (m : Material) : Material :=
  let o := m.captured
  { emissive := (Color.ofHex o.1).lerp (Color.ofHex highlightHex) (65/100),
    emissiveIntensity := min (o.2 + 25/100) (75/100),
    orig := some o }

/-- `ThreeDashboard` highlight application: capture the original if needed,
then `emissive.setHex(0x1d86d5)` and `emissiveIntensity = 1.2`. -/
def applyHighlightDashboard (m : Material) : Material :=
  let o := m.captured
  { emissive := Color.ofHex 0x1d86d5,
    emissiveIntensity := 12/10,
    orig := some o }

structure ScenePart where
  key : String
  materials : List Material
deriving DecidableEq

def revertPart (p : ScenePart) : ScenePart :=
  { p with materials := p.materials.map revertMaterial }

def revertAll (ps : List ScenePart) : List ScenePart :=
  ps.map revertPart

def highlightPart (f : Material → Material) (p : ScenePart) : ScenePart :=
  { p with materials := p.materials.map f }

/-- `parts.find(p => p.key === focus)` followed by highlighting only the found
part: the first part whose key matches is highlighted, all others untouched. -/
def highlightFirst (f : Material → Material) (k : String) : List ScenePart → List ScenePart
  | [] => []
  | p :: ps => if p.key = k then highlightPart f p :: ps else p :: highlightFirst f k ps

/-- One run of a scene's focus `useEffect` for focus value `focus`. -/
def applyFocus (f : Material → Material) (focus : Option String) (ps : List ScenePart) :
    List ScenePart :=
  match focus with
  | none => revertAll ps
  | some k => highlightFirst f k (revertAll ps)

def applyFocusAssembly : Option String → List ScenePart → List ScenePart :=
  applyFocus applyHighlightAssembly

def applyFocusDashboard : Option String → List ScenePart → List ScenePart :=
  applyFocus applyHighlightDashboard

/-- A material shows no highlight: its live emissive state agrees with its
captured original (vacuously true when nothing was ever captured). -/
def materialClean (m : Material) : Bool :=
  match m.orig with
  | none => true
  | some o => m.emissive = Color.ofHex o.1 && m.emissiveIntensity = o.2

def partClean (p : ScenePart) : Bool :=
  p.materials.all materialClean

/-- Number of parts currently carrying a highlighted material state. -/
def highlightedCount (ps : List ScenePart) : ℕ :=
  (ps.filter (fun p => !partClean p)).length

/-! ### Basic lemmas about the revert pass -/

theorem revertMaterial_clean (m : Material) : materialClean (revertMaterial m) = true := by
  obtain ⟨e, i, o⟩ := m
  cases o <;> simp [revertMaterial, materialClean]

theorem revertPart_clean (p : ScenePart) : partClean (revertPart p) = true := by
  obtain ⟨k, ms⟩ := p
  simp only [partClean, revertPart, List.all_map, List.all_eq_true]
  intro m _
  simpa using revertMaterial_clean m

theorem revertPart_key (p : ScenePart) : (revertPart p).key = p.key := rfl

theorem highlightPart_key (f : Material → Material) (p : ScenePart) :
    (highlightPart f p).key = p.key := rfl

theorem highlightedCount_nil : highlightedCount [] = 0 := rfl

theorem highlightedCount_cons (p : ScenePart) (ps : List ScenePart) :
    highlightedCount (p :: ps) =
      (if partClean p then 0 else 1) + highlightedCount ps := by
  simp only [highlightedCount, List.filter_cons]
  cases h : partClean p <;> simp [h, Nat.add_comm]

theorem highlightedCount_eq_zero {ps : List ScenePart}
    (h : ∀ p ∈ ps, partClean p = true) : highlightedCount ps = 0 := by
  induction ps with
  | nil => rfl
  | cons p ps ih =>
    rw [highlightedCount_cons, h p (by simp), if_pos rfl, ih (fun q hq => h q (by simp [hq]))]

theorem highlightedCount_revertAll (ps : List ScenePart) :
    highlightedCount (revertAll ps) = 0 := by
  refine highlightedCount_eq_zero ?_
  intro p hp
  obtain ⟨q, _, rfl⟩ := List.mem_map.mp hp
  exact revertPart_clean q

/-- Highlighting the first matching part of an all-clean scene leaves at most
one part non-clean. -/
theorem highlightedCount_highlightFirst_le_one (f : Material → Material) (k : String)
    {ps : List ScenePart} (h : ∀ p ∈ ps, partClean p = true) :
    highlightedCount (highlightFirst f k ps) ≤ 1 := by
  induction ps with
  | nil => simp [highlightFirst, highlightedCount]
  | cons p ps ih =>
    rw [highlightFirst]
    by_cases hk : p.key = k
    · rw [if_pos hk, highlightedCount_cons,
        highlightedCount_eq_zero (fun q hq => h q (by simp [hq]))]
      split <;> omega
    · rw [if_neg hk, highlightedCount_cons, h p (by simp), if_pos rfl]
      simpa using ih (fun q hq => h q (by simp [hq]))

theorem highlightFirst_of_no_match (f : Material → Material) (k : String)
    {ps : List ScenePart} (h : ∀ p ∈ ps, p.key ≠ k) :
    highlightFirst f k ps = ps := by
  induction ps with
  | nil => rfl
  | cons p ps ih =>
    rw [highlightFirst, if_neg (h p (by simp)), ih (fun q hq => h q (by simp [hq]))]

/-! ### Capture-once structure of the two highlight appliers -/

/-- Both scenes' highlight appliers store the captured original in
`userData` and derive everything else from it. -/
def CapturesOrig (f : Material → Material) : Prop :=
  ∀ m, (f m).orig = some m.captured

theorem capturesOrig_assembly : CapturesOrig applyHighlightAssembly := fun _ => rfl

theorem capturesOrig_dashboard : CapturesOrig applyHighlightDashboard := fun _ => rfl

theorem captured_revertMaterial (m : Material) :
    (revertMaterial m).captured = m.captured := by
  obtain ⟨e, i, o⟩ := m
  cases o <;> simp [revertMaterial, Material.captured]

theorem captured_applyHighlightAssembly (m : Material) :
    (applyHighlightAssembly m).captured = m.captured := rfl

theorem captured_applyHighlightDashboard (m : Material) :
    (applyHighlightDashboard m).captured = m.captured := rfl

theorem applyHighlightAssembly_congr {m m' : Material} (h : m.captured = m'.captured) :
    applyHighlightAssembly m = applyHighlightAssembly m' := by
  simp [applyHighlightAssembly, h]

theorem applyHighlightDashboard_congr {m m' : Material} (h : m.captured = m'.captured) :
    applyHighlightDashboard m = applyHighlightDashboard m' := by
  simp [applyHighlightDashboard, h]

theorem assembly_revert (m : Material) :
    applyHighlightAssembly (revertMaterial m) = applyHighlightAssembly m :=
  applyHighlightAssembly_congr (captured_revertMaterial m)

theorem dashboard_revert (m : Material) :
    applyHighlightDashboard (revertMaterial m) = applyHighlightDashboard m :=
  applyHighlightDashboard_congr (captured_revertMaterial m)

theorem assembly_assembly (m : Material) :
    applyHighlightAssembly (applyHighlightAssembly m) = applyHighlightAssembly m :=
  applyHighlightAssembly_congr (captured_applyHighlightAssembly m)

theorem dashboard_dashboard (m : Material) :
    applyHighlightDashboard (applyHighlightDashboard m) = applyHighlightDashboard m :=
  applyHighlightDashboard_congr (captured_applyHighlightDashboard m)

theorem revertMaterial_idem (m : Material) :
    revertMaterial (revertMaterial m) = revertMaterial m := by
  obtain ⟨e, i, o⟩ := m
  cases o <;> simp [revertMaterial]

/-! ### Scene-level composition lemmas -/

theorem revertPart_idem (p : ScenePart) : revertPart (revertPart p) = revertPart p := by
  obtain ⟨k, ms⟩ := p
  simp only [revertPart, List.map_map, ScenePart.mk.injEq, true_and]
  exact List.map_congr_left (fun m _ => revertMaterial_idem m)

theorem revertAll_idem (ps : List ScenePart) : revertAll (revertAll ps) = revertAll ps := by
  simp only [revertAll, List.map_map]
  exact List.map_congr_left (fun p _ => revertPart_idem p)

theorem highlightFirst_congr {f g : Material → Material} (h : ∀ m, f m = g m)
    (k : String) (ps : List ScenePart) : highlightFirst f k ps = highlightFirst g k ps := by
  induction ps with
  | nil => rfl
  | cons p ps ih =>
    rw [highlightFirst, highlightFirst, ih]
    have : highlightPart f p = highlightPart g p := by
      simp only [highlightPart]
      exact congrArg _ (List.map_congr_left (fun m _ => h m))
    rw [this]

theorem highlightFirst_highlightFirst (f g : Material → Material) (k : String)
    (ps : List ScenePart) :
    highlightFirst f k (highlightFirst g k ps) = highlightFirst (fun m => f (g m)) k ps := by
  induction ps with
  | nil => rfl
  | cons p ps ih =>
    by_cases hk : p.key = k
    · rw [highlightFirst, if_pos hk, highlightFirst, if_pos ((highlightPart_key g p).symm ▸ hk),
        highlightFirst, if_pos hk]
      simp [highlightPart, List.map_map, Function.comp]
    · rw [highlightFirst, if_neg hk, highlightFirst, if_neg hk, highlightFirst, if_neg hk, ih]

theorem revertAll_highlightFirst (f : Material → Material) (k : String) (ps : List ScenePart)
    (hf : ∀ m, f (revertMaterial m) = f m) :
    revertAll (highlightFirst f k ps) =
      highlightFirst (fun m => revertMaterial (f m)) k (revertAll ps) := by
  induction ps with
  | nil => rfl
  | cons p ps ih =>
    by_cases hk : p.key = k
    · rw [highlightFirst, if_pos hk]
      show revertPart (highlightPart f p) :: revertAll ps =
        highlightFirst (fun m => revertMaterial (f m)) k (revertPart p :: revertAll ps)
      rw [highlightFirst, if_pos ((revertPart_key p).symm ▸ hk)]
      have hpart : revertPart (highlightPart f p) =
          highlightPart (fun m => revertMaterial (f m)) (revertPart p) := by
        simp only [revertPart, highlightPart, List.map_map]
        exact congrArg _ (List.map_congr_left (fun m _ => by simp [Function.comp, hf m]))
      rw [hpart]
    · rw [highlightFirst, if_neg hk]
      show revertPart p :: revertAll (highlightFirst f k ps) =
        highlightFirst (fun m => revertMaterial (f m)) k (revertPart p :: revertAll ps)
      rw [highlightFirst, if_neg ((revertPart_key p).symm ▸ hk), ih]

/-! ### Round-trip: capture, highlight, revert restores the original state -/

/-- Link between a material's pristine pre-highlight state `m₀` and its current
state `m`: either untouched, or carrying the exact capture of the pristine
state in `userData`. -/
def MLink (m₀ m : Material) : Prop :=
  m₀.orig = none ∧ m₀.emissive = Color.ofHex m₀.emissive.getHex ∧
    (m = m₀ ∨ m.orig = some (m₀.emissive.getHex, m₀.emissiveIntensity))

def PartLink (p₀ p : ScenePart) : Prop :=
  p.key = p₀.key ∧ List.Forall₂ MLink p₀.materials p.materials

def SceneLink (ps₀ ps : List ScenePart) : Prop :=
  List.Forall₂ PartLink ps₀ ps

/-- Nothing captured yet, and every emissive color is byte-exact — true of
every hex-constructed material the scene builders produce. -/
def Pristine (ps : List ScenePart) : Prop :=
  ∀ p ∈ ps, ∀ m ∈ p.materials,
    m.orig = none ∧ m.emissive = Color.ofHex m.emissive.getHex

theorem MLink_captured {m₀ m : Material} (h : MLink m₀ m) :
    m.captured = (m₀.emissive.getHex, m₀.emissiveIntensity) := by
  obtain ⟨h₁, _, h₃ | h₃⟩ := h
  · subst h₃; simp [Material.captured, h₁]
  · simp [Material.captured, h₃]

theorem MLink_revert {m₀ m : Material} (h : MLink m₀ m) : MLink m₀ (revertMaterial m) := by
  obtain ⟨h₁, h₂, h₃ | h₃⟩ := h
  · subst h₃
    refine ⟨h₁, h₂, Or.inl ?_⟩
    simp [revertMaterial, h₁]
  · exact ⟨h₁, h₂, Or.inr (by simp [revertMaterial, h₃])⟩

theorem MLink_apply {f : Material → Material} (hf : CapturesOrig f)
    {m₀ m : Material} (h : MLink m₀ m) : MLink m₀ (f m) :=
  ⟨h.1, h.2.1, Or.inr (by rw [hf m, MLink_captured h])⟩

theorem MLink_proj {m₀ m : Material} (h : MLink m₀ m) :
    (revertMaterial m).emissive = m₀.emissive ∧
      (revertMaterial m).emissiveIntensity = m₀.emissiveIntensity := by
  obtain ⟨h₁, h₂, h₃ | h₃⟩ := h
  · subst h₃; simp [revertMaterial, h₁]
  · simp [revertMaterial, h₃]
    exact h₂.symm

theorem forall₂_map_right {α β : Type} {R : α → β → Prop} {g : β → β}
    (hg : ∀ a b, R a b → R a (g b)) :
    ∀ {l₁ : List α} {l₂ : List β}, List.Forall₂ R l₁ l₂ → List.Forall₂ R l₁ (l₂.map g) := by
  intro l₁ l₂ h
  induction h with
  | nil => simp
  | cons h₁ _ ih => exact List.Forall₂.cons (hg _ _ h₁) ih

theorem PartLink_revert {p₀ p : ScenePart} (h : PartLink p₀ p) :
    PartLink p₀ (revertPart p) :=
  ⟨h.1, forall₂_map_right (fun _ _ => MLink_revert) h.2⟩

theorem PartLink_highlight {f : Material → Material} (hf : CapturesOrig f)
    {p₀ p : ScenePart} (h : PartLink p₀ p) : PartLink p₀ (highlightPart f p) :=
  ⟨h.1, forall₂_map_right (fun _ _ => MLink_apply hf) h.2⟩

theorem SceneLink_revertAll {ps₀ ps : List ScenePart} (h : SceneLink ps₀ ps) :
    SceneLink ps₀ (revertAll ps) :=
  forall₂_map_right (fun _ _ => PartLink_revert) h

theorem SceneLink_highlightFirst {f : Material → Material} (hf : CapturesOrig f) (k : String)
    {ps₀ ps : List ScenePart} (h : SceneLink ps₀ ps) :
    SceneLink ps₀ (highlightFirst f k ps) := by
  induction h with
  | nil => exact List.Forall₂.nil
  | cons h₁ h₂ ih =>
    rw [highlightFirst]
    split
    · exact List.Forall₂.cons (PartLink_highlight hf h₁) h₂
    · exact List.Forall₂.cons h₁ ih

theorem SceneLink_applyFocus {f : Material → Material} (hf : CapturesOrig f)
    (k : Option String) {ps₀ ps : List ScenePart} (h : SceneLink ps₀ ps) :
    SceneLink ps₀ (applyFocus f k ps) := by
  cases k with
  | none => exact SceneLink_revertAll h
  | some k => exact SceneLink_highlightFirst hf k (SceneLink_revertAll h)

theorem SceneLink_of_pristine {ps : List ScenePart} (h : Pristine ps) : SceneLink ps ps := by
  rw [SceneLink, List.forall₂_same]
  intro p hp
  refine ⟨rfl, ?_⟩
  rw [List.forall₂_same]
  intro m hm
  exact ⟨(h p hp m hm).1, (h p hp m hm).2, Or.inl rfl⟩

/-- The observable emissive state (color, intensity) of every material in the
scene, part by part. -/
def sceneEmissives (ps : List ScenePart) : List (List (Color × ℚ)) :=
  ps.map (fun p => p.materials.map (fun m => (m.emissive, m.emissiveIntensity)))

theorem mlink_emissives {ms₀ ms : List Material} (h : List.Forall₂ MLink ms₀ ms) :
    (ms.map revertMaterial).map (fun m => (m.emissive, m.emissiveIntensity)) =
      ms₀.map (fun m => (m.emissive, m.emissiveIntensity)) := by
  induction h with
  | nil => rfl
  | cons h₁ _ ih =>
    simp only [List.map_cons]
    rw [(MLink_proj h₁).1, (MLink_proj h₁).2, ih]

theorem PartLink_emissives {p₀ p : ScenePart} (h : PartLink p₀ p) :
    (revertPart p).materials.map (fun m => (m.emissive, m.emissiveIntensity)) =
      p₀.materials.map (fun m => (m.emissive, m.emissiveIntensity)) :=
  mlink_emissives h.2

theorem SceneLink_emissives {ps₀ ps : List ScenePart} (h : SceneLink ps₀ ps) :
    sceneEmissives (revertAll ps) = sceneEmissives ps₀ := by
  induction h with
  | nil => rfl
  | cons h₁ _ ih =>
    simp only [sceneEmissives, revertAll, List.map_cons] at ih ⊢
    rw [PartLink_emissives h₁]
    exact congrArg _ ih

/-- The focus effect re-run over an arbitrary sequence of focus values. -/
def focusRun (f : Material → Material) (ks : List (Option String)) (ps : List ScenePart) :
    List ScenePart :=
  ks.foldl (fun s k => applyFocus f k s) ps

theorem SceneLink_focusRun {f : Material → Material} (hf : CapturesOrig f)
    (ks : List (Option String)) {ps₀ ps : List ScenePart} (h : SceneLink ps₀ ps) :
    SceneLink ps₀ (focusRun f ks ps) := by
  induction ks generalizing ps with
  | nil => exact h
  | cons k ks ih => exact ih (SceneLink_applyFocus hf k h)

theorem allClean_revertAll {ps : List ScenePart} :
    ∀ p ∈ revertAll ps, partClean p = true := by
  intro p hp
  obtain ⟨q, _, rfl⟩ := List.mem_map.mp hp
  exact revertPart_clean q

theorem applyFocus_idem {f : Material → Material}
    (hrev : ∀ m, f (revertMaterial m) = f m) (hff : ∀ m, f (f m) = f m)
    (k : Option String) (ps : List ScenePart) :
    applyFocus f k (applyFocus f k ps) = applyFocus f k ps := by
  cases k with
  | none => exact revertAll_idem ps
  | some k =>
    show highlightFirst f k (revertAll (highlightFirst f k (revertAll ps))) =
      highlightFirst f k (revertAll ps)
    rw [revertAll_highlightFirst f k (revertAll ps) hrev, revertAll_idem,
      highlightFirst_highlightFirst]
    refine highlightFirst_congr (fun m => ?_) k (revertAll ps)
    calc f (revertMaterial (f m)) = f (f m) := hrev (f m)
    _ = f m := hff m

theorem Color.lerp_ne_of_ne {c d : Color} {a : ℚ} (ha : a ≠ 1) (h : c ≠ d) :
    c.lerp d a ≠ d := by
  intro he
  apply h
  obtain ⟨cr, cg, cb⟩ := c
  obtain ⟨dr, dg, db⟩ := d
  simp only [Color.lerp, Color.mk.injEq] at he ⊢
  have ha' : 1 - a ≠ 0 := fun h0 => ha (by linarith)
  refine ⟨?_, ?_, ?_⟩
  · have h1 : (dr - cr) * (1 - a) = 0 := by linear_combination -he.1
    rcases mul_eq_zero.mp h1 with h2 | h2
    · linarith
    · exact absurd h2 ha'
  · have h1 : (dg - cg) * (1 - a) = 0 := by linear_combination -he.2.1
    rcases mul_eq_zero.mp h1 with h2 | h2
    · linarith
    · exact absurd h2 ha'
  · have h1 : (db - cb) * (1 - a) = 0 := by linear_combination -he.2.2
    rcases mul_eq_zero.mp h1 with h2 | h2
    · linarith
    · exact absurd h2 ha'

/-- Tiny concrete scene used to witness the focus theorems: two parts with
hex-constructed materials, as the scene builders produce. -/
def witnessScene : List ScenePart :=
  [⟨"a", [Material.fresh 0x111a20 (38/100)]⟩, ⟨"b", [Material.fresh 0x3e2500 (1/2)]⟩]

/-- C2: after every focus change at most one part carries a highlighted
material state; `applyFocus(null)` leaves zero highlighted; focusing an
unknown key only reverts (no highlight, the function is total, so no error);
and any command sequence ending in a revert restores every material's
pre-highlight emissive color and intensity exactly — in both scenes. -/
theorem focus_invariant :
    (∀ (ps : List ScenePart) (k : Option String),
        highlightedCount (applyFocusAssembly k ps) ≤ 1 ∧
        highlightedCount (applyFocusDashboard k ps) ≤ 1) ∧
    (∀ ps : List ScenePart,
        highlightedCount (applyFocusAssembly none ps) = 0 ∧
        highlightedCount (applyFocusDashboard none ps) = 0) ∧
    (∀ (ps : List ScenePart) (k : String),
        (∀ p ∈ ps, p.key ≠ k) →
          applyFocusAssembly (some k) ps = revertAll ps ∧
          applyFocusDashboard (some k) ps = revertAll ps) ∧
    (∀ (ps : List ScenePart) (ks : List (Option String)),
        Pristine ps →
          sceneEmissives (focusRun applyHighlightAssembly (ks ++ [none]) ps) =
            sceneEmissives ps ∧
          sceneEmissives (focusRun applyHighlightDashboard (ks ++ [none]) ps) =
            sceneEmissives ps) := by
  have hkeys : ∀ (ps : List ScenePart) (k : String), (∀ p ∈ ps, p.key ≠ k) →
      ∀ p ∈ revertAll ps, p.key ≠ k := by
    intro ps k h p hp
    obtain ⟨q, hq, rfl⟩ := List.mem_map.mp hp
    exact h q hq
  have hrun : ∀ (f : Material → Material), CapturesOrig f →
      ∀ (ps : List ScenePart) (ks : List (Option String)), Pristine ps →
        sceneEmissives (focusRun f (ks ++ [none]) ps) = sceneEmissives ps := by
    intro f hf ps ks hp
    have hlink : SceneLink ps (focusRun f ks ps) :=
      SceneLink_focusRun hf ks (SceneLink_of_pristine hp)
    have : focusRun f (ks ++ [none]) ps = revertAll (focusRun f ks ps) := by
      rw [focusRun, List.foldl_append]
      rfl
    rw [this]
    exact SceneLink_emissives hlink
  refine ⟨?_, ?_, ?_, ?_⟩
  · intro ps k
    cases k with
    | none =>
      refine ⟨?_, ?_⟩ <;>
      · show highlightedCount (revertAll ps) ≤ 1
        rw [highlightedCount_revertAll]
        omega
    | some k =>
      exact ⟨highlightedCount_highlightFirst_le_one _ k allClean_revertAll,
        highlightedCount_highlightFirst_le_one _ k allClean_revertAll⟩
  · intro ps
    exact ⟨highlightedCount_revertAll ps, highlightedCount_revertAll ps⟩
  · intro ps k h
    constructor
    · show highlightFirst applyHighlightAssembly k (revertAll ps) = revertAll ps
      exact highlightFirst_of_no_match _ k (hkeys ps k h)
    · show highlightFirst applyHighlightDashboard k (revertAll ps) = revertAll ps
      exact highlightFirst_of_no_match _ k (hkeys ps k h)
  · intro ps ks hp
    exact ⟨hrun _ capturesOrig_assembly ps ks hp, hrun _ capturesOrig_dashboard ps ks hp⟩

theorem fresh_pristine (h : ℕ) (i : ℚ) (hh : h < 2 ^ 24) :
    (Material.fresh h i).orig = none ∧
      (Material.fresh h i).emissive = Color.ofHex (Material.fresh h i).emissive.getHex := by
  refine ⟨rfl, ?_⟩
  show Color.ofHex h = Color.ofHex (Color.ofHex h).getHex
  rw [Color.getHex_ofHex h hh]

theorem pristine_witnessScene : Pristine witnessScene := by
  intro p hp m hm
  simp only [witnessScene, List.mem_cons, List.not_mem_nil, or_false] at hp
  rcases hp with rfl | rfl
  · simp only [List.mem_singleton] at hm
    subst hm
    exact fresh_pristine _ _ (by norm_num)
  · simp only [List.mem_singleton] at hm
    subst hm
    exact fresh_pristine _ _ (by norm_num)

/-- C2 witness: the focus invariants instantiated on a concrete two-part
scene, an unknown key and a concrete focus sequence. -/
theorem focus_invariant_witness :
    ((∀ p ∈ witnessScene, p.key ≠ "z") ∧ Pristine witnessScene) ∧
      (applyFocusAssembly (some "z") witnessScene = revertAll witnessScene ∧
        applyFocusDashboard (some "z") witnessScene = revertAll witnessScene) ∧
      sceneEmissives (focusRun applyHighlightAssembly ([some "a"] ++ [none]) witnessScene) =
        sceneEmissives witnessScene :=
  ⟨⟨by decide, pristine_witnessScene⟩,
    focus_invariant.2.2.1 witnessScene "z" (by decide),
    (focus_invariant.2.2.2 witnessScene [some "a"] pristine_witnessScene).1⟩

/-- C6 counterexample: in `ThreeDashboard` the applied highlight is a full
replacement of the emissive color by the fixed hue `0x1d86d5`, not a partial
blend of the captured original toward it: two materials with different
original emissives get the identical highlighted emissive, which moreover
differs from the 65%-blend of the original toward the hue, and the intensity
is set to the absolute value 1.2 regardless of the original. -/
theorem highlight_blend_counterexample :
    (applyHighlightDashboard (Material.fresh 0xff0000 (38/100))).emissive
        = (applyHighlightDashboard (Material.fresh 0x00ff00 (38/100))).emissive ∧
    (Material.fresh 0xff0000 (38/100)).emissive ≠ (Material.fresh 0x00ff00 (38/100)).emissive ∧
    (applyHighlightDashboard (Material.fresh 0xff0000 (38/100))).emissive ≠
      ((Material.fresh 0xff0000 (38/100)).emissive.lerp (Color.ofHex 0x1d86d5) (65/100)) ∧
    (applyHighlightDashboard (Material.fresh 0xff0000 (38/100))).emissiveIntensity = 12/10 ∧
    (applyHighlightDashboard (Material.fresh 0 (38/100))).emissiveIntensity = 12/10 := by
  refine ⟨rfl, ?_, ?_, rfl, rfl⟩
  · simp only [Material.fresh, Color.ofHex, ne_eq, Color.mk.injEq, not_and]
    norm_num
  · simp only [applyHighlightDashboard, Material.fresh, Material.captured, Option.getD_none,
      Color.ofHex, Color.lerp, ne_eq, Color.mk.injEq, not_and]
    norm_num

/-- C6 (amended): in `AssemblyExplodedScene` the highlight blends the captured
original emissive 65% toward the fixed hue `0xffa640` — a partial blend that
never lands on the hue itself unless the original already equals it — and sets
the intensity to `min(orig + 0.25, 0.75)`, a bounded raise capped at the
ceiling 0.75.  In `ThreeDashboard` the highlight instead replaces the emissive
wholesale with the fixed hue `0x1d86d5` and sets the intensity to the absolute
value 1.2.  In both scenes, applying the same focus twice yields the same
single highlight state (capture-once guard), never a compounded one. -/
theorem highlight_blend_amended :
    (∀ m : Material,
        (applyHighlightAssembly m).emissive
            = (Color.ofHex m.captured.1).lerp (Color.ofHex highlightHex) (65/100) ∧
        ((Color.ofHex m.captured.1) ≠ Color.ofHex highlightHex →
          (applyHighlightAssembly m).emissive ≠ Color.ofHex highlightHex) ∧
        (applyHighlightAssembly m).emissiveIntensity = min (m.captured.2 + 25/100) (75/100) ∧
        (applyHighlightAssembly m).emissiveIntensity ≤ 75/100 ∧
        (applyHighlightAssembly m).emissiveIntensity ≤ m.captured.2 + 25/100) ∧
    (∀ m : Material,
        (applyHighlightDashboard m).emissive = Color.ofHex 0x1d86d5 ∧
        (applyHighlightDashboard m).emissiveIntensity = 12/10) ∧
    (∀ (k : Option String) (ps : List ScenePart),
        applyFocusAssembly k (applyFocusAssembly k ps) = applyFocusAssembly k ps ∧
        applyFocusDashboard k (applyFocusDashboard k ps) = applyFocusDashboard k ps) := by
  refine ⟨?_, ?_, ?_⟩
  · intro m
    refine ⟨rfl, ?_, rfl, min_le_right _ _, min_le_left _ _⟩
    intro hne
    exact Color.lerp_ne_of_ne (by norm_num) hne
  · intro m
    exact ⟨rfl, rfl⟩
  · intro k ps
    exact ⟨applyFocus_idem assembly_revert assembly_assembly k ps,
      applyFocus_idem dashboard_revert dashboard_dashboard k ps⟩

/-- C6 amended witness: the partial-blend inequality instantiated at a
concrete material whose original emissive differs from the highlight hue. -/
theorem highlight_blend_amended_witness :
    (Color.ofHex (Material.fresh 0x111a20 (38/100)).captured.1 ≠ Color.ofHex highlightHex) ∧
      (applyHighlightAssembly (Material.fresh 0x111a20 (38/100))).emissive ≠
        Color.ofHex highlightHex := by
  have hcap : (Material.fresh 0x111a20 (38/100)).captured.1 = 0x111a20 := by
    simp only [Material.fresh, Material.captured, Option.getD_none]
    exact Color.getHex_ofHex _ (by norm_num)
  have hne : Color.ofHex (Material.fresh 0x111a20 (38/100)).captured.1
      ≠ Color.ofHex highlightHex := by
    rw [hcap]
    simp only [highlightHex, Color.ofHex, ne_eq, Color.mk.injEq, not_and]
    norm_num
  exact ⟨hne, (highlight_blend_amended.1 (Material.fresh 0x111a20 (38/100))).2.1 hne⟩

/-! ## Explode/assemble state machine (`AssemblyExplodedScene.toggleAssembly`)

`toggleAssembly` first calls `kill()` on every tween in `assemblingRef.current`,
then creates one position tween per part (duration 1.4, delay `i*0.08`,
`power3.inOut`) toward the *other* state's target, stores the new list in
`assemblingRef`, and flips `isExploded`.  A gsap position tween starts from the
part's current position and, when allowed to complete, leaves the position at
its target; a killed tween never writes again.  Positions are modelled
explicitly; the live tweens are exactly `assembling`, and `killed` records
every tween on which `kill()` was called. -/

structure Vec3 where
  x : ℚ
  y : ℚ
  z : ℚ
deriving DecidableEq

structure AsmPart where
  key : String
  finalPos : Vec3
  explodedPos : Vec3
deriving DecidableEq

structure Tween where
  targetIdx : ℕ
  target : Vec3
  duration : ℚ
  delay : ℚ
deriving DecidableEq

/-- The target each part tweens to: `isExploded ? p.finalPos : p.explodedPos`. -/
def asmTarget (isExploded : Bool) (p : AsmPart) : Vec3 :=
  if isExploded then p.finalPos else p.explodedPos

/-- `parts.forEach((p,i) => tweens.push(gsap.to(p.group.position, { x: target.x,
y: target.y, z: target.z, duration: 1.4, delay: i*0.08, ease })))`. -/
def mkTweens (isExploded : Bool) : ℕ → List AsmPart → List Tween
  | _, [] => []
  | i, p :: ps => ⟨i, asmTarget isExploded p, 7/5, (i : ℚ) * (8/100)⟩ :: mkTweens isExploded (i+1) ps

structure AsmState where
  positions : List Vec3
  isExploded : Bool
  assembling : List Tween
  killed : List Tween
deriving DecidableEq

/-- `toggleAssembly()`: no-op on an empty registry; otherwise kill all of
`assemblingRef.current`, start fresh tweens toward the opposite state from each
part's current position, and flip the state flag. -/
def toggleAssembly (parts : List AsmPart) (s : AsmState) : AsmState :=
  if parts.isEmpty then s
  else
    { positions := s.positions
      isExploded := !s.isExploded
      assembling := mkTweens s.isExploded 0 parts
      killed := s.killed ++ s.assembling }

/-- Running every live tween to completion writes each tween's target into its
part's position. -/
def runToCompletion (posns : List Vec3) (ts : List Tween) : List Vec3 :=
  ts.foldl (fun acc t => acc.set t.targetIdx t.target) posns

theorem take_succ_set {α : Type} (l : List α) (k : ℕ) (v : α) (hk : k < l.length) :
    (l.set k v).take (k + 1) = l.take k ++ [v] := by
  induction l generalizing k with
  | nil => simp at hk
  | cons a l ih =>
    cases k with
    | zero => simp
    | succ k =>
      simp only [List.set_cons_succ, List.take_succ_cons, List.take_cons]
      rw [ih k (by simpa using hk)]
      rfl

theorem runToCompletion_mkTweens (b : Bool) :
    ∀ (ps : List AsmPart) (k : ℕ) (l : List Vec3), l.length = k + ps.length →
      runToCompletion l (mkTweens b k ps) = l.take k ++ ps.map (asmTarget b) := by
  intro ps
  induction ps with
  | nil =>
    intro k l hl
    simp only [List.length_nil, Nat.add_zero] at hl
    simp [mkTweens, runToCompletion, ← hl, List.take_length]
  | cons p ps ih =>
    intro k l hl
    show runToCompletion (l.set k (asmTarget b p)) (mkTweens b (k+1) ps) =
      l.take k ++ asmTarget b p :: List.map (asmTarget b) ps
    have hl' : l.length = k + (ps.length + 1) := by simpa using hl
    have hk : k < l.length := by omega
    have hlen : (l.set k (asmTarget b p)).length = (k + 1) + ps.length := by
      rw [List.length_set, hl']
      omega
    rw [ih (k+1) _ hlen, take_succ_set l k _ hk]
    simp

/-- C3: toggling a second time while the first toggle's tweens are in flight
kills every in-flight tween (so no orphaned tween keeps writing), starts new
tweens from the parts' current mid-flight positions (no snapping), toward the
opposite state's targets; letting the second batch complete leaves every part
at its pre-first-toggle target (its `finalPos`). -/
theorem toggle_twice_mid_flight (parts : List AsmPart) (mid : List Vec3)
    (hne : parts ≠ []) (hlen : mid.length = parts.length) :
    let s1 := toggleAssembly parts ⟨parts.map (fun p => p.finalPos), false, [], []⟩
    let s2 := toggleAssembly parts { s1 with positions := mid }
    runToCompletion s2.positions s2.assembling = parts.map (fun p => p.finalPos) ∧
      s2.positions = mid ∧
      s2.killed = s1.assembling ∧
      s2.assembling = mkTweens true 0 parts ∧
      s2.isExploded = false := by
  intro s1 s2
  have hemp : parts.isEmpty = false := by
    cases parts with
    | nil => exact absurd rfl hne
    | cons p ps => rfl
  have hs1 : s1 = ⟨parts.map (fun p => p.finalPos), true, mkTweens false 0 parts, []⟩ := by
    show toggleAssembly parts _ = _
    rw [toggleAssembly, hemp]
    rfl
  have hs2 : s2 = ⟨mid, false, mkTweens true 0 parts, mkTweens false 0 parts⟩ := by
    show toggleAssembly parts _ = _
    rw [toggleAssembly, hemp]
    rw [hs1]
    rfl
  rw [hs1, hs2]
  refine ⟨?_, rfl, rfl, rfl, rfl⟩
  have := runToCompletion_mkTweens true parts 0 mid (by simpa using hlen)
  rw [this, List.take_zero, List.nil_append]
  exact List.map_congr_left (fun p _ => rfl)

def wAsmParts : List AsmPart :=
  [⟨"motor", ⟨-12/5, 7/2, 0⟩, ⟨-11, 7/2, 0⟩⟩,
   ⟨"coupling", ⟨4/5, 7/2, 0⟩, ⟨-2, 7/2, 0⟩⟩]

def wMid : List Vec3 := [⟨-5, 7/2, 0⟩, ⟨0, 7/2, 0⟩]

/-- C3 witness: the double-toggle theorem instantiated on two concrete parts
caught at concrete mid-flight positions. -/
theorem toggle_twice_mid_flight_witness :
    wAsmParts ≠ [] ∧ wMid.length = wAsmParts.length ∧
      (let s1 := toggleAssembly wAsmParts ⟨wAsmParts.map (fun p => p.finalPos), false, [], []⟩
       let s2 := toggleAssembly wAsmParts { s1 with positions := wMid }
       runToCompletion s2.positions s2.assembling = wAsmParts.map (fun p => p.finalPos) ∧
         s2.positions = wMid ∧
         s2.killed = s1.assembling ∧
         s2.assembling = mkTweens true 0 wAsmParts ∧
         s2.isExploded = false) :=
  ⟨by simp [wAsmParts], rfl, toggle_twice_mid_flight wAsmParts wMid (by simp [wAsmParts]) rfl⟩

/-! ## Flare gas puff system (`ThreeDashboard` spawnPuff / animate)

The emitter spawns only inside `if (currentRate > FLARE_PUFF_THRESHOLD)`: the
accumulator gains `dt * (2 + excess*0.35)` and the `while (accum > 1)` loop
spawns one puff per unit, dropping the spawn (but still consuming the unit)
when the pool is at `MAX_ACTIVE_PUFFS`.  The update loop then ages every puff
by `dt`, removing (detach + dispose) any whose life fraction reached 1, and
integrating position/scale on the survivors.  `Math.random()` draws are passed
in explicitly as one `PuffRand` per spawn. -/

structure Puff where
  life : ℚ
  maxLife : ℚ
  pos : Vec3
  v : Vec3
  startScale : ℚ
  endScale : ℚ
  scale : ℚ
deriving DecidableEq

/-- The five `Math.random()` draws one `spawnPuff` call consumes. -/
structure PuffRand where
  r1 : ℚ
  r2 : ℚ
  r3 : ℚ
  r4 : ℚ
  r5 : ℚ
deriving DecidableEq

def FLARE_PUFF_THRESHOLD : ℚ := 14

def MAX_ACTIVE_PUFFS : ℕ := 40

/-- `spawnPuff(strength)`: drop the request if the pool is full, else push a
fresh puff (life 0, `maxLife = 0.9 + rnd*0.6`, upward velocity scaled by
`strength`, scale 0.15 growing to `0.75 + strength*0.05 + rnd*0.15`). -/
def spawnPuff (strength : ℚ) (rd : PuffRand) (ps : List Puff) : List Puff :=
  if MAX_ACTIVE_PUFFS ≤ ps.length then ps
  else
    ps ++ [{ life := 0
             maxLife := 9/10 + rd.r1 * (6/10)
             pos := ⟨0, 0, 0⟩
             v := ⟨(rd.r2 - 1/2) * (15/100),
                   9/10 + rd.r3 * (6/10) + strength * (5/100),
                   (rd.r4 - 1/2) * (15/100)⟩
             startScale := 15/100
             endScale := 3/4 + strength * (5/100) + rd.r5 * (15/100)
             scale := 15/100 }]

/-- `while (puffSpawnAccum > 1) { spawnPuff(excess); puffSpawnAccum -= 1; }`,
consuming one random draw per iteration. -/
def spawnLoop (strength : ℚ) (rnd : ℕ → PuffRand) (j : ℕ) (accum : ℚ) (ps : List Puff) :
    ℚ × List Puff :=
  if h : 1 < accum then
    spawnLoop strength rnd (j + 1) (accum - 1) (spawnPuff strength (rnd j) ps)
  else (accum, ps)
termination_by (⌈accum⌉).toNat
decreasing_by
  rw [Int.ceil_sub_one]
  have h2 : (1 : ℤ) < ⌈accum⌉ := Int.lt_ceil.mpr (by exact_mod_cast h)
  omega

/-- The emission block of `animate()` for one frame. -/
def emitPuffs (currentRate dt : ℚ) (rnd : ℕ → PuffRand) (accum : ℚ) (ps : List Puff) :
    ℚ × List Puff :=
  if FLARE_PUFF_THRESHOLD < currentRate then
    let excess := currentRate - FLARE_PUFF_THRESHOLD
    let spawnRate := 2 + excess * (35/100)
    spawnLoop excess rnd 0 (accum + dt * spawnRate) ps
  else (accum, ps)

/-- One puff's per-frame update: age by `dt`; if the life fraction reached 1,
detach and dispose (`none`); else integrate position and scale. -/
def updatePuff (dt : ℚ) (p : Puff) : Option Puff :=
  let life := p.life + dt
  let lf := if 0 < p.maxLife then life / p.maxLife else 1
  if 1 ≤ lf then none
  else some { p with
              life := life
              pos := ⟨p.pos.x + p.v.x * dt, p.pos.y + p.v.y * dt, p.pos.z + p.v.z * dt⟩
              scale := p.startScale + (p.endScale - p.startScale) * lf }

/-- The backwards-splice update loop over the pool, order preserved. -/
def updatePuffs (dt : ℚ) (ps : List Puff) : List Puff :=
  ps.filterMap (updatePuff dt)

/-- One full `animate()` frame of the puff system: emission then update. -/
def puffFrame (currentRate dt : ℚ) (rnd : ℕ → PuffRand) (s : ℚ × List Puff) :
    ℚ × List Puff :=
  let e := emitPuffs currentRate dt rnd s.1 s.2
  (e.1, updatePuffs dt e.2)

/-- A whole run: one `(rate, dt, randoms)` triple per frame. -/
def puffRun (frames : List (ℚ × ℚ × (ℕ → PuffRand))) (s : ℚ × List Puff) :
    ℚ × List Puff :=
  frames.foldl (fun acc f => puffFrame f.1 f.2.1 f.2.2 acc) s

/-- The `spawnRate = 2 + excess * 0.35` formula of the emission block, as a
function of the current rate. -/
def spawnRateOf (rate : ℚ) : ℚ :=
  2 + (rate - FLARE_PUFF_THRESHOLD) * (35/100)

theorem spawnPuff_length_le (strength : ℚ) (rd : PuffRand) {ps : List Puff}
    (h : ps.length ≤ MAX_ACTIVE_PUFFS) :
    (spawnPuff strength rd ps).length ≤ MAX_ACTIVE_PUFFS := by
  unfold spawnPuff
  split
  · exact h
  · rename_i hfull
    simp only [List.length_append, List.length_cons, List.length_nil]
    omega

theorem spawnLoop_length_le (strength : ℚ) (rnd : ℕ → PuffRand) :
    ∀ (n j : ℕ) (accum : ℚ) (ps : List Puff), (⌈accum⌉).toNat ≤ n →
      ps.length ≤ MAX_ACTIVE_PUFFS →
      (spawnLoop strength rnd j accum ps).2.length ≤ MAX_ACTIVE_PUFFS := by
  intro n
  induction n with
  | zero =>
    intro j accum ps hn hp
    rw [spawnLoop]
    have hno : ¬ 1 < accum := by
      intro h1
      have h2 : (1 : ℤ) < ⌈accum⌉ := Int.lt_ceil.mpr (by exact_mod_cast h1)
      omega
    rw [dif_neg hno]
    exact hp
  | succ n ih =>
    intro j accum ps hn hp
    rw [spawnLoop]
    split
    · rename_i h1
      refine ih (j + 1) (accum - 1) _ ?_ (spawnPuff_length_le strength (rnd j) hp)
      rw [Int.ceil_sub_one]
      have h2 : (1 : ℤ) < ⌈accum⌉ := Int.lt_ceil.mpr (by exact_mod_cast h1)
      omega
    · exact hp

theorem updatePuffs_length_le (dt : ℚ) (ps : List Puff) :
    (updatePuffs dt ps).length ≤ ps.length :=
  List.length_filterMap_le _ _

theorem emitPuffs_low (rate dt : ℚ) (rnd : ℕ → PuffRand) (accum : ℚ) (ps : List Puff)
    (h : rate ≤ FLARE_PUFF_THRESHOLD) : emitPuffs rate dt rnd accum ps = (accum, ps) := by
  unfold emitPuffs
  rw [if_neg (not_lt.mpr h)]

theorem emitPuffs_length_le (rate dt : ℚ) (rnd : ℕ → PuffRand) (accum : ℚ) {ps : List Puff}
    (h : ps.length ≤ MAX_ACTIVE_PUFFS) :
    (emitPuffs rate dt rnd accum ps).2.length ≤ MAX_ACTIVE_PUFFS := by
  unfold emitPuffs
  split
  · exact spawnLoop_length_le _ rnd _ 0 _ ps le_rfl h
  · exact h

theorem puffFrame_length_le (rate dt : ℚ) (rnd : ℕ → PuffRand) {s : ℚ × List Puff}
    (h : s.2.length ≤ MAX_ACTIVE_PUFFS) :
    (puffFrame rate dt rnd s).2.length ≤ MAX_ACTIVE_PUFFS :=
  le_trans (updatePuffs_length_le dt _) (emitPuffs_length_le rate dt rnd s.1 h)

/-- C4: the puff emitter spawns only while the live flare rate strictly
exceeds the threshold 14 — holding the rate at (or below) the threshold
changes nothing and the pool can only shrink over any duration; when it does
emit, the accumulator gains `dt * spawnRate` with `spawnRate = 2 +
0.35*(rate - threshold)`, linear in the excess; and under any input history
the active pool never exceeds the hard cap of 40, spawn requests at capacity
being dropped (`spawnPuff` returns the pool unchanged when full). -/
theorem puff_emitter_gating :
    (∀ (rate dt : ℚ) (rnd : ℕ → PuffRand) (accum : ℚ) (ps : List Puff),
        rate ≤ FLARE_PUFF_THRESHOLD → emitPuffs rate dt rnd accum ps = (accum, ps)) ∧
    (∀ (frames : List (ℚ × ℚ × (ℕ → PuffRand))) (s : ℚ × List Puff),
        (∀ f ∈ frames, f.1 ≤ FLARE_PUFF_THRESHOLD) →
        (puffRun frames s).2.length ≤ s.2.length) ∧
    (∀ (rate dt : ℚ) (rnd : ℕ → PuffRand) (accum : ℚ) (ps : List Puff),
        FLARE_PUFF_THRESHOLD < rate →
        emitPuffs rate dt rnd accum ps =
          spawnLoop (rate - FLARE_PUFF_THRESHOLD) rnd 0
            (accum + dt * spawnRateOf rate) ps) ∧
    (∀ e₁ e₂ : ℚ,
        spawnRateOf (FLARE_PUFF_THRESHOLD + e₂) - spawnRateOf (FLARE_PUFF_THRESHOLD + e₁) =
          (e₂ - e₁) * (35/100)) ∧
    (∀ (strength : ℚ) (rd : PuffRand) (ps : List Puff),
        MAX_ACTIVE_PUFFS ≤ ps.length → spawnPuff strength rd ps = ps) ∧
    (∀ (frames : List (ℚ × ℚ × (ℕ → PuffRand))) (s : ℚ × List Puff),
        s.2.length ≤ MAX_ACTIVE_PUFFS →
        (puffRun frames s).2.length ≤ MAX_ACTIVE_PUFFS) := by
  refine ⟨emitPuffs_low, ?_, ?_, ?_, ?_, ?_⟩
  · intro frames
    induction frames with
    | nil => intro s _; exact le_rfl
    | cons f fs ih =>
      intro s hf
      show (puffRun fs (puffFrame f.1 f.2.1 f.2.2 s)).2.length ≤ s.2.length
      refine le_trans (ih _ (fun g hg => hf g (by simp [hg]))) ?_
      show (puffFrame f.1 f.2.1 f.2.2 s).2.length ≤ s.2.length
      rw [puffFrame, emitPuffs_low f.1 f.2.1 f.2.2 s.1 s.2 (hf f (by simp))]
      exact updatePuffs_length_le _ _
  · intro rate dt rnd accum ps h
    unfold emitPuffs spawnRateOf
    rw [if_pos h]
  · intro e₁ e₂
    unfold spawnRateOf
    ring
  · intro strength rd ps h
    unfold spawnPuff
    rw [if_pos h]
  · intro frames
    induction frames with
    | nil => intro s h; exact h
    | cons f fs ih =>
      intro s h
      exact ih _ (puffFrame_length_le f.1 f.2.1 f.2.2 h)

/-- C4 witness: the gating and cap statements instantiated at the threshold
rate, a concrete one-frame low-rate run, and an empty initial pool. -/
theorem puff_emitter_gating_witness :
    ((14 : ℚ) ≤ FLARE_PUFF_THRESHOLD ∧
        emitPuffs 14 (1/60) (fun _ => ⟨0, 0, 0, 0, 0⟩) 0 [] = (0, [])) ∧
      ((puffRun [(14, 1/60, fun _ => ⟨0, 0, 0, 0, 0⟩)] (0, [])).2.length ≤
          ([] : List Puff).length) ∧
      (puffRun [(20, 1/60, fun _ => ⟨0, 0, 0, 0, 0⟩)] (0, [])).2.length ≤ MAX_ACTIVE_PUFFS := by
  have h14 : (14 : ℚ) ≤ FLARE_PUFF_THRESHOLD := le_of_eq rfl
  refine ⟨⟨h14, puff_emitter_gating.1 14 (1/60) _ 0 [] h14⟩, ?_, ?_⟩
  · refine puff_emitter_gating.2.1 _ (0, []) ?_
    intro f hf
    rw [List.mem_singleton] at hf
    subst hf
    exact h14
  · exact puff_emitter_gating.2.2.2.2.2 _ (0, []) (by simp [MAX_ACTIVE_PUFFS])

theorem updatePuff_some_lt {dt : ℚ} {p q : Puff} (h : updatePuff dt p = some q) :
    q.life < q.maxLife := by
  simp only [updatePuff] at h
  by_cases hm : 0 < p.maxLife
  · rw [if_pos hm] at h
    split_ifs at h with hlf
    rw [Option.some_inj] at h
    subst h
    push_neg at hlf
    exact (div_lt_one hm).mp hlf
  · rw [if_neg hm, if_pos le_rfl] at h
    exact absurd h (by simp)

/-- C8: no puff outlives its `maxLife`.  Within every frame's update pass, any
puff whose life fraction has reached 1 is detached and disposed in that same
pass, so after the update — hence after every full frame, under any
emission-rate input — every puff in the pool satisfies `life < maxLife`. -/
theorem puff_lifetime_hard_deadline :
    (∀ (dt : ℚ) (ps : List Puff) (q : Puff), q ∈ updatePuffs dt ps → q.life < q.maxLife) ∧
    (∀ (rate dt : ℚ) (rnd : ℕ → PuffRand) (s : ℚ × List Puff) (q : Puff),
        q ∈ (puffFrame rate dt rnd s).2 → q.life < q.maxLife) ∧
    (∀ (frames : List (ℚ × ℚ × (ℕ → PuffRand))) (s : ℚ × List Puff) (q : Puff),
        frames ≠ [] → q ∈ (puffRun frames s).2 → q.life < q.maxLife) := by
  have hupd : ∀ (dt : ℚ) (ps : List Puff) (q : Puff),
      q ∈ updatePuffs dt ps → q.life < q.maxLife := by
    intro dt ps q hq
    obtain ⟨p, _, hp⟩ := List.mem_filterMap.mp hq
    exact updatePuff_some_lt hp
  have hframe : ∀ (rate dt : ℚ) (rnd : ℕ → PuffRand) (s : ℚ × List Puff) (q : Puff),
      q ∈ (puffFrame rate dt rnd s).2 → q.life < q.maxLife := by
    intro rate dt rnd s q hq
    exact hupd dt _ q hq
  refine ⟨hupd, hframe, ?_⟩
  intro frames
  induction frames with
  | nil => intro s q hne _; exact absurd rfl hne
  | cons f fs ih =>
    intro s q _ hq
    cases fs with
    | nil => exact hframe f.1 f.2.1 f.2.2 s q hq
    | cons g gs => exact ih _ q (by simp) hq

/-- C8 witness: a concrete half-aged puff survives one update with its age
still strictly below its `maxLife`, while the update is applied. -/
theorem puff_lifetime_hard_deadline_witness :
    (⟨1/2, 1, ⟨0, 0, 0⟩, ⟨0, 0, 0⟩, 15/100, 3/4, 9/20⟩ : Puff) ∈
        updatePuffs (1/2) [⟨0, 1, ⟨0, 0, 0⟩, ⟨0, 0, 0⟩, 15/100, 3/4, 15/100⟩] ∧
      (1/2 : ℚ) < 1 := by
  have hmem : (⟨1/2, 1, ⟨0, 0, 0⟩, ⟨0, 0, 0⟩, 15/100, 3/4, 9/20⟩ : Puff) ∈
      updatePuffs (1/2) [⟨0, 1, ⟨0, 0, 0⟩, ⟨0, 0, 0⟩, 15/100, 3/4, 15/100⟩] := by
    unfold updatePuffs updatePuff
    norm_num
  exact ⟨hmem, puff_lifetime_hard_deadline.1 (1/2) _ _ hmem⟩

/-! ## Telemetry smoothing (`SupportPortal.MetricsAndLegend`)

Every animation frame the smooth loop runs `lerp = (a,b,f=0.12) => a+(b-a)*f`
on each displayed value toward its target; the targets are recomputed on a
1.5-second interval tick from bounded oscillators.  The flare/recovered
notification is throttled through `window.__lastFlareDispatch`: it fires only
when no dispatch happened yet or more than 250 ms have passed, and — as the
source reads — it passes `tFlare` and `tRecovered`, the oscillator *targets*. -/

def smoothF : ℚ := 12/100

def lerp (a b f : ℚ) : ℚ := a + (b - a) * f

/-- Displayed value after `n` frames with the target held constant at `T`. -/
def displayedSeq (d0 T : ℚ) : ℕ → ℚ
  | 0 => d0
  | n + 1 => lerp (displayedSeq d0 T n) T smoothF

theorem displayedSeq_gap (d0 T : ℚ) : ∀ n : ℕ,
    T - displayedSeq d0 T n = (22/25) ^ n * (T - d0) := by
  intro n
  induction n with
  | zero => simp [displayedSeq]
  | succ n ih =>
    show T - lerp (displayedSeq d0 T n) T smoothF = (22/25) ^ (n + 1) * (T - d0)
    rw [pow_succ]
    unfold lerp smoothF
    nlinarith [ih]

/-- C7: each displayed value advances by `displayed += (target - displayed) *
0.12` every frame; for a constant target `T` the sequence is monotone toward
`T`, never overshoots `T`, and after 50 or more ticks its distance to `T` has
shrunk below `1/500` of the initial gap. -/
theorem smoothing_convergence :
    (∀ d T : ℚ, lerp d T smoothF = d + (T - d) * (12/100)) ∧
    (∀ (d0 T : ℚ) (n : ℕ), T - displayedSeq d0 T n = (22/25) ^ n * (T - d0)) ∧
    (∀ d0 T : ℚ, d0 ≤ T → ∀ n : ℕ,
        displayedSeq d0 T n ≤ displayedSeq d0 T (n + 1) ∧ displayedSeq d0 T n ≤ T) ∧
    (∀ d0 T : ℚ, T ≤ d0 → ∀ n : ℕ,
        displayedSeq d0 T (n + 1) ≤ displayedSeq d0 T n ∧ T ≤ displayedSeq d0 T n) ∧
    (∀ (d0 T : ℚ) (n : ℕ), 50 ≤ n →
        |displayedSeq d0 T n - T| ≤ (1/500) * |d0 - T|) := by
  have hq0 : (0:ℚ) ≤ 22/25 := by norm_num
  have gap := displayedSeq_gap
  refine ⟨fun d T => rfl, gap, ?_, ?_, ?_⟩
  · intro d0 T h n
    have hn := gap d0 T n
    have hpow : (0:ℚ) ≤ (22/25) ^ n := pow_nonneg hq0 n
    have hTd : 0 ≤ T - displayedSeq d0 T n := by nlinarith
    constructor
    · show displayedSeq d0 T n ≤ lerp (displayedSeq d0 T n) T smoothF
      unfold lerp smoothF
      nlinarith
    · linarith
  · intro d0 T h n
    have hn := gap d0 T n
    have hpow : (0:ℚ) ≤ (22/25) ^ n := pow_nonneg hq0 n
    have hTd : T - displayedSeq d0 T n ≤ 0 := by nlinarith
    constructor
    · show lerp (displayedSeq d0 T n) T smoothF ≤ displayedSeq d0 T n
      unfold lerp smoothF
      nlinarith
    · linarith
  · intro d0 T n hn
    have habs : |displayedSeq d0 T n - T| = (22/25) ^ n * |d0 - T| := by
      have h1 : displayedSeq d0 T n - T = -((22/25) ^ n * (T - d0)) := by
        have := gap d0 T n
        linarith
      rw [h1, abs_neg, abs_mul, abs_of_nonneg (pow_nonneg hq0 n), abs_sub_comm]
    rw [habs]
    have h50 : ((22:ℚ)/25) ^ n ≤ (22/25) ^ 50 :=
      pow_le_pow_of_le_one hq0 (by norm_num) hn
    have hbound : ((22:ℚ)/25) ^ 50 ≤ 1/500 := by norm_num
    have habs0 : (0:ℚ) ≤ |d0 - T| := abs_nonneg _
    nlinarith

/-- C7 witness: the convergence statements instantiated at `d0 = 0`, `T = 1`,
`n = 50`. -/
theorem smoothing_convergence_witness :
    ((0:ℚ) ≤ 1 ∧ displayedSeq 0 1 3 ≤ displayedSeq 0 1 4 ∧ displayedSeq 0 1 3 ≤ 1) ∧
      (50 ≤ 50 ∧ |displayedSeq 0 1 50 - 1| ≤ (1/500) * |(0:ℚ) - 1|) :=
  ⟨⟨by norm_num, (smoothing_convergence.2.2.1 0 1 (by norm_num) 3).1,
      (smoothing_convergence.2.2.1 0 1 (by norm_num) 3).2⟩,
    ⟨le_rfl, smoothing_convergence.2.2.2.2 0 1 50 le_rfl⟩⟩

/-- The seven smoothed display values of `MetricsAndLegend`. -/
structure MetricsState where
  oilRate : ℚ
  gasRate : ℚ
  waterCut : ℚ
  tankLevel : ℚ
  sepPressure : ℚ
  flareRate : ℚ
  recovRate : ℚ
deriving DecidableEq

/-- The seven oscillator targets recomputed each 1.5 s tick. -/
structure MetricsTargets where
  tOil : ℚ
  tGas : ℚ
  tWaterCut : ℚ
  tTank : ℚ
  tSepP : ℚ
  tFlare : ℚ
  tRecovered : ℚ
deriving DecidableEq

/-- The seven `set…(o => lerp(o, t…))` calls of one smooth-loop frame. -/
def smoothStates (tg : MetricsTargets) (s : MetricsState) : MetricsState :=
  { oilRate := lerp s.oilRate tg.tOil smoothF
    gasRate := lerp s.gasRate tg.tGas smoothF
    waterCut := lerp s.waterCut tg.tWaterCut smoothF
    tankLevel := lerp s.tankLevel tg.tTank smoothF
    sepPressure := lerp s.sepPressure tg.tSepP smoothF
    flareRate := lerp s.flareRate tg.tFlare smoothF
    recovRate := lerp s.recovRate tg.tRecovered smoothF }

/-- `window.__lastFlareDispatch === undefined || now - lastDispatch > 250`. -/
def shouldDispatch (last : Option ℚ) (now : ℚ) : Bool :=
  match last with
  | none => true
  | some t0 => 250 < now - t0

/-- One smooth-loop frame: lerp all displayed values, then, if the throttle
gate opens, record the dispatch time and emit `(tFlare, tRecovered)` — the raw
targets — to `onFlareRateChange` / `onRecoveredChange`. -/
def smoothFrameDispatch (tg : MetricsTargets) (now : ℚ) (s : MetricsState)
    (last : Option ℚ) : MetricsState × Option ℚ × Option (ℚ × ℚ) :=
  let s' := smoothStates tg s
  if shouldDispatch last now then (s', some now, some (tg.tFlare, tg.tRecovered))
  else (s', last, none)

/-- The dispatch timestamps produced over a run of frames `(targets, now)`. -/
def runDispatches : List (MetricsTargets × ℚ) → MetricsState → Option ℚ → List ℚ
  | [], _, _ => []
  | f :: fs, s, last =>
    let r := smoothFrameDispatch f.1 f.2 s last
    match r.2.2 with
    | some _ => f.2 :: runDispatches fs r.1 r.2.1
    | none => runDispatches fs r.1 r.2.1

def cexTargets : MetricsTargets := ⟨0, 0, 0, 0, 0, 18, 6⟩

def cexState : MetricsState := ⟨0, 0, 0, 0, 0, 13, 5⟩

/-- C5 counterexample: with the displayed flare rate at 13 and the target at
18, the first dispatch delivers 18 — the raw oscillator target — which equals
neither the displayed value before the frame (13) nor the freshly smoothed
one (`lerp 13 18 0.12`), refuting the claim that consumers receive the
smoothed displayed value. -/
theorem telemetry_dispatch_counterexample :
    (smoothFrameDispatch cexTargets 0 cexState none).2.2 = some (18, 6) ∧
      (smoothFrameDispatch cexTargets 0 cexState none).1.flareRate = lerp 13 18 smoothF ∧
      lerp 13 18 smoothF ≠ 18 ∧
      (13 : ℚ) ≠ 18 ∧
      cexTargets.tFlare = 18 := by
  refine ⟨rfl, rfl, ?_, by norm_num, rfl⟩
  unfold lerp smoothF
  norm_num

theorem runDispatches_chain (fs : List (MetricsTargets × ℚ)) :
    ∀ (s : MetricsState) (t0 : ℚ),
      List.Chain' (fun a b => 250 < b - a) (t0 :: runDispatches fs s (some t0)) := by
  induction fs with
  | nil =>
    intro s t0
    simp [runDispatches]
  | cons f fs ih =>
    intro s t0
    rw [runDispatches]
    by_cases hgate : shouldDispatch (some t0) f.2 = true
    · have hr : (smoothFrameDispatch f.1 f.2 s (some t0)).2 =
          (some f.2, some (f.1.tFlare, f.1.tRecovered)) := by
        unfold smoothFrameDispatch
        rw [if_pos hgate]
      rw [smoothFrameDispatch] at hr ⊢
      rw [if_pos hgate] at hr ⊢
      refine List.Chain'.cons ?_ (ih _ f.2)
      have : (250 : ℚ) < f.2 - t0 := by
        simpa [shouldDispatch] using hgate
      exact this
    · rw [smoothFrameDispatch]
      rw [if_neg hgate]
      exact ih _ t0

/-- C5 (amended): every notification delivered through the throttle gate
carries the raw oscillator targets `(tFlare, tRecovered)`, not the smoothed
displayed values; dispatches are throttled — one fires only when none has
fired yet or more than 250 ms have elapsed since the previous one, so
consecutive dispatch timestamps are always more than 250 ms apart (at most
about 4 per second), a cadence independent of the frame rate. -/
theorem telemetry_dispatch_amended :
    (∀ (tg : MetricsTargets) (now : ℚ) (s : MetricsState) (last : Option ℚ) (v : ℚ × ℚ),
        (smoothFrameDispatch tg now s last).2.2 = some v →
          v = (tg.tFlare, tg.tRecovered)) ∧
    (∀ (tg : MetricsTargets) (now : ℚ) (s : MetricsState) (t0 : ℚ),
        ((smoothFrameDispatch tg now s (some t0)).2.2).isSome = true → 250 < now - t0) ∧
    (∀ (tg : MetricsTargets) (now : ℚ) (s : MetricsState) (last : Option ℚ),
        (smoothFrameDispatch tg now s last).1 = smoothStates tg s) ∧
    (∀ (fs : List (MetricsTargets × ℚ)) (s : MetricsState) (t0 : ℚ),
        List.Chain' (fun a b => 250 < b - a) (t0 :: runDispatches fs s (some t0))) ∧
    (∀ (fs : List (MetricsTargets × ℚ)) (s : MetricsState),
        List.Chain' (fun a b => 250 < b - a) (runDispatches fs s none)) := by
  refine ⟨?_, ?_, ?_, runDispatches_chain, ?_⟩
  · intro tg now s last v h
    unfold smoothFrameDispatch at h
    split_ifs at h
    rw [Option.some_inj] at h
    exact h.symm
  · intro tg now s t0 h
    unfold smoothFrameDispatch at h
    split_ifs at h with hgate
    · simpa [shouldDispatch] using hgate
    · exact absurd h (by simp)
  · intro tg now s last
    unfold smoothFrameDispatch
    split_ifs <;> rfl
  · intro fs s
    cases fs with
    | nil => exact List.chain'_nil
    | cons f fs =>
      rw [runDispatches]
      show (match (smoothFrameDispatch f.1 f.2 s none).2.2 with
        | some _ => f.2 :: runDispatches fs (smoothFrameDispatch f.1 f.2 s none).1
            (smoothFrameDispatch f.1 f.2 s none).2.1
        | none => runDispatches fs (smoothFrameDispatch f.1 f.2 s none).1
            (smoothFrameDispatch f.1 f.2 s none).2.1).Chain' (fun a b => 250 < b - a)
      rw [smoothFrameDispatch]
      rw [if_pos (show shouldDispatch none f.2 = true from rfl)]
      exact runDispatches_chain fs _ f.2

/-- C5 amended witness: a dispatch fired 300 ms after the previous one
delivers exactly the targets, and respects the 250 ms throttle bound. -/
theorem telemetry_dispatch_amended_witness :
    ((smoothFrameDispatch cexTargets 300 cexState (some 0)).2.2 = some (18, 6) ∧
        ((18 : ℚ), (6 : ℚ)) = (cexTargets.tFlare, cexTargets.tRecovered)) ∧
      (((smoothFrameDispatch cexTargets 300 cexState (some 0)).2.2).isSome = true ∧
        (250 : ℚ) < 300 - 0) := by
  have hgate : shouldDispatch (some 0) 300 = true := by
    unfold shouldDispatch
    norm_num
  have hsome : (smoothFrameDispatch cexTargets 300 cexState (some 0)).2.2 = some (18, 6) := by
    unfold smoothFrameDispatch
    rw [if_pos hgate]
    rfl
  refine ⟨⟨hsome, telemetry_dispatch_amended.1 cexTargets 300 cexState (some 0) (18, 6) hsome⟩,
    ⟨by rw [hsome]; rfl, telemetry_dispatch_amended.2.1 cexTargets 300 cexState 0
      (by rw [hsome]; rfl)⟩⟩

/-! ## Capture Efficiency readout (C10)

`tFlare = 12 + Math.max(0, Math.sin(tick*1.1))*6` and `tRecovered = 5.5 +
Math.sin(tick*0.95+1.4)*2 + Math.max(0, 10 - tFlare*0.4)*0.15`; the smoothed
states are initialised to the tick-0 targets and lerped each frame.  The
rendered Capture Efficiency is `recovRate / (recovRate + flareRate) * 100`
with no guard; the pulse computation guards the same expression with
`recovRate + flareRate > 0`.  The `Math.sin` draws are abstracted to bounded
sequences. -/

def tFlareTarget (sFl : ℕ → ℚ) (tick : ℕ) : ℚ :=
  12 + max 0 (sFl tick) * 6

def tRecoveredTarget (sFl sRec : ℕ → ℚ) (tick : ℕ) : ℚ :=
  11/2 + sRec tick * 2 + max 0 (10 - tFlareTarget sFl tick * (4/10)) * (15/100)

/-- Displayed flare rate: `useState(tFlare)` at tick 0, then one lerp per
frame toward the target of the tick current at that frame. -/
def flareDisplayed (sFl : ℕ → ℚ) (tickAt : ℕ → ℕ) : ℕ → ℚ
  | 0 => tFlareTarget sFl 0
  | n + 1 => lerp (flareDisplayed sFl tickAt n) (tFlareTarget sFl (tickAt n)) smoothF

def recovDisplayed (sFl sRec : ℕ → ℚ) (tickAt : ℕ → ℕ) : ℕ → ℚ
  | 0 => tRecoveredTarget sFl sRec 0
  | n + 1 => lerp (recovDisplayed sFl sRec tickAt n) (tRecoveredTarget sFl sRec (tickAt n)) smoothF

/-- The unguarded render-site expression. -/
def captureEfficiencyReadout (recov flare : ℚ) : ℚ :=
  recov / (recov + flare) * 100

/-- The guarded pulse-threshold expression. -/
def capEffGuarded (recov flare : ℚ) : ℚ :=
  if 0 < recov + flare then recov / (recov + flare) * 100 else 0

theorem tFlareTarget_bounds (sFl : ℕ → ℚ) (h : ∀ n, |sFl n| ≤ 1) (tick : ℕ) :
    12 ≤ tFlareTarget sFl tick ∧ tFlareTarget sFl tick ≤ 18 := by
  unfold tFlareTarget
  have h1 := abs_le.mp (h tick)
  have h2 : (0:ℚ) ≤ max 0 (sFl tick) := le_max_left _ _
  have h3 : max 0 (sFl tick) ≤ 1 := max_le (by norm_num) h1.2
  constructor <;> nlinarith

theorem tRecoveredTarget_lb (sFl sRec : ℕ → ℚ) (hRec : ∀ n, |sRec n| ≤ 1) (tick : ℕ) :
    7/2 ≤ tRecoveredTarget sFl sRec tick := by
  unfold tRecoveredTarget
  have h1 := (abs_le.mp (hRec tick)).1
  have h2 : (0:ℚ) ≤ max 0 (10 - tFlareTarget sFl tick * (4/10)) := le_max_left _ _
  nlinarith

theorem lerp_bounds {a b lo hi : ℚ} (ha : lo ≤ a) (ha' : a ≤ hi) (hb : lo ≤ b) (hb' : b ≤ hi) :
    lo ≤ lerp a b smoothF ∧ lerp a b smoothF ≤ hi := by
  unfold lerp smoothF
  constructor <;> nlinarith

/-- C10: for every reachable state of the synthetic telemetry the displayed
flare rate stays in `[12, 18]` and the displayed recovered-vapor rate stays at
or above `3.5`, so the denominator `recovRate + flareRate` of the Capture
Efficiency readout is strictly positive and the unguarded render-site
expression coincides with the guarded pulse-threshold expression — the
readout is always a well-defined finite number. -/
theorem capture_efficiency_denominator_safe (sFl sRec : ℕ → ℚ) (tickAt : ℕ → ℕ)
    (hFl : ∀ n, |sFl n| ≤ 1) (hRec : ∀ n, |sRec n| ≤ 1) :
    ∀ n : ℕ,
      (12 ≤ flareDisplayed sFl tickAt n ∧ flareDisplayed sFl tickAt n ≤ 18) ∧
      7/2 ≤ recovDisplayed sFl sRec tickAt n ∧
      0 < recovDisplayed sFl sRec tickAt n + flareDisplayed sFl tickAt n ∧
      captureEfficiencyReadout (recovDisplayed sFl sRec tickAt n) (flareDisplayed sFl tickAt n) =
        capEffGuarded (recovDisplayed sFl sRec tickAt n) (flareDisplayed sFl tickAt n) := by
  have main : ∀ n : ℕ,
      (12 ≤ flareDisplayed sFl tickAt n ∧ flareDisplayed sFl tickAt n ≤ 18) ∧
        7/2 ≤ recovDisplayed sFl sRec tickAt n := by
    intro n
    induction n with
    | zero =>
      exact ⟨tFlareTarget_bounds sFl hFl 0, tRecoveredTarget_lb sFl sRec hRec 0⟩
    | succ n ih =>
      have hfb := tFlareTarget_bounds sFl hFl (tickAt n)
      have hrb := tRecoveredTarget_lb sFl sRec hRec (tickAt n)
      refine ⟨lerp_bounds ih.1.1 ih.1.2 hfb.1 hfb.2, ?_⟩
      have hr : 7/2 ≤ recovDisplayed sFl sRec tickAt n := ih.2
      show 7/2 ≤ lerp (recovDisplayed sFl sRec tickAt n)
        (tRecoveredTarget sFl sRec (tickAt n)) smoothF
      unfold lerp smoothF
      nlinarith
  intro n
  obtain ⟨hf, hr⟩ := main n
  have hden : 0 < recovDisplayed sFl sRec tickAt n + flareDisplayed sFl tickAt n := by
    linarith [hf.1]
  refine ⟨hf, hr, hden, ?_⟩
  unfold captureEfficiencyReadout capEffGuarded
  rw [if_pos hden]

/-- C10 witness: the denominator-safety theorem instantiated on the constant
zero sine draws and the identity tick schedule, three frames in. -/
theorem capture_efficiency_denominator_safe_witness :
    ((∀ _n : ℕ, |(0:ℚ)| ≤ 1) ∧ (∀ _n : ℕ, |(0:ℚ)| ≤ 1)) ∧
      (0 < recovDisplayed (fun _ => 0) (fun _ => 0) (fun n => n) 3 +
          flareDisplayed (fun _ => 0) (fun n => n) 3 ∧
        captureEfficiencyReadout (recovDisplayed (fun _ => 0) (fun _ => 0) (fun n => n) 3)
            (flareDisplayed (fun _ => 0) (fun n => n) 3) =
          capEffGuarded (recovDisplayed (fun _ => 0) (fun _ => 0) (fun n => n) 3)
            (flareDisplayed (fun _ => 0) (fun n => n) 3)) :=
  ⟨⟨fun _ => by norm_num, fun _ => by norm_num⟩,
    (capture_efficiency_denominator_safe (fun _ => 0) (fun _ => 0) (fun n => n)
        (fun _ => by norm_num) (fun _ => by norm_num) 3).2.2⟩

/-! ## Rotating equipment (C9)

`ThreeDashboard.animate` integrates the VRU fan (`speed = 2.5 + min(12, rv) *
0.12; fanDisc.rotation.y += dt * speed`) and the cooler fan (`spin = 4.5 +
min(18, rv)*0.28; coolerFan.rotation.y += dt*spin`) by the frame delta, with
`rv` read fresh from `recoveredVaporRateRef` each frame.
`AssemblyExplodedScene.animate` instead assigns the impeller rotation
absolutely each frame: `impellerSpin.rotation.x = t * speed` where `speed =
isExploded ? 0.9 : 2.8`.  That `animate` is defined once inside the
`[]`-dependency mount effect, so its closure permanently captures the first
render's `isExploded` — `INITIAL_EXPLODED = false` — and the speed is the
constant 2.8 on every frame of the program. -/

def fanDiscRotationStep (rot dt rv : ℚ) : ℚ :=
  rot + dt * (5/2 + min 12 rv * (12/100))

def coolerFanRotationStep (rot dt rv : ℚ) : ℚ :=
  rot + dt * (9/2 + min 18 rv * (28/100))

/-- `const INITIAL_EXPLODED = false` — the first-render exploded flag, frozen
into the `animate` closure by the `[]`-dependency mount effect. -/
def INITIAL_EXPLODED : Bool := false

/-- `const speed = isExploded ? 0.9 : 2.8`, evaluated on the closure-captured
flag. -/
def impellerSpeed (capturedIsExploded : Bool) : ℚ :=
  if capturedIsExploded then 9/10 else 14/5

/-- `impellerSpinRef.current.rotation.x = t * speed`: the impeller's per-frame
transition of `rotation.x` — an absolute assignment that discards the current
rotation `rot` rather than incrementing it. -/
def impellerSpinUpdate (_rot t : ℚ) : ℚ :=
  t * impellerSpeed INITIAL_EXPLODED

/-- The spec's `clamp(liveRate, 0, cap)`. -/
def clampQ (x lo hi : ℚ) : ℚ :=
  max lo (min hi x)

/-- The claim's update form for rotating equipment, following its words:
`rotation += rate * dt`. -/
def claimedDeltaStep (rot rate dt : ℚ) : ℚ :=
  rot + rate * dt

/-- C9 counterexample: the assembly impeller's per-frame update is the
absolute-time assignment `rotation = t * 2.8` (the `isExploded ? 0.9 : 2.8`
modulation is inoperative — the animate closure holds the first render's
`false`).  As a function it discards the current rotation: a frame at clock
time 2 produces the same new angle `5.6` whether the rotation was 0 or 1
beforehand, whereas the claimed `rotation += rate·dt` form always preserves
the difference of the starting rotations (at the impeller's actual speed 2.8
and a 1/60 s delta the two outcomes would differ by exactly 1).  The impeller
update is therefore not of the claimed frame-delta-integration form for any
rate — it is exactly the absolute-time product the claim rules out. -/
theorem rotation_integration_counterexample :
    impellerSpinUpdate 0 2 = impellerSpinUpdate 1 2 ∧
      impellerSpinUpdate 1 2 = 2 * (14/5) ∧
      claimedDeltaStep 1 (14/5) (1/60) - claimedDeltaStep 0 (14/5) (1/60) = 1 ∧
      impellerSpeed INITIAL_EXPLODED = 14/5 := by
  refine ⟨rfl, rfl, ?_, rfl⟩
  unfold claimedDeltaStep
  ring

/-- C9 (amended): the VRU fan and cooler fan are frame-delta-integrated,
`rotation += dt * (base + min(cap, liveRate) * gain)`, which for a nonnegative
live rate equals the claimed `base + clamp(liveRate, 0, cap) * gain`.  The
assembly impeller is instead assigned absolutely each frame, `rotation =
t * speed`, with `speed` the constant 2.8 — the exploded-state modulation is
frozen out by the stale closure and no live rate influences it.  The update
discards the current rotation (it is an overwrite, which no `rotation +=
rate·dt` form can be, since that form preserves rotation differences); its
trace still advances by `2.8·(t - t')` between clock times, so with the
constant speed and zero initial angle no discontinuous jump ever occurs. -/
theorem rotation_kinematics_amended :
    (∀ rot dt rv : ℚ, 0 ≤ rv →
        fanDiscRotationStep rot dt rv = rot + dt * (5/2 + clampQ rv 0 12 * (12/100))) ∧
    (∀ rot dt rv : ℚ, 0 ≤ rv →
        coolerFanRotationStep rot dt rv = rot + dt * (9/2 + clampQ rv 0 18 * (28/100))) ∧
    (∀ rot dt rv : ℚ,
        fanDiscRotationStep rot dt rv - rot = dt * (5/2 + min 12 rv * (12/100))) ∧
    (∀ rot dt rv : ℚ,
        coolerFanRotationStep rot dt rv - rot = dt * (9/2 + min 18 rv * (28/100))) ∧
    (∀ rot t : ℚ, impellerSpinUpdate rot t = t * (14/5)) ∧
    (∀ rot rot' t : ℚ, impellerSpinUpdate rot t = impellerSpinUpdate rot' t) ∧
    (∀ rot rot' rate dt : ℚ,
        claimedDeltaStep rot rate dt - claimedDeltaStep rot' rate dt = rot - rot') ∧
    (∀ rot t t' : ℚ,
        impellerSpinUpdate rot t - impellerSpinUpdate rot t' = (14/5) * (t - t')) ∧
    impellerSpeed INITIAL_EXPLODED = 14/5 := by
  have hclamp : ∀ (rv cap : ℚ), 0 ≤ rv → 0 ≤ cap → clampQ rv 0 cap = min cap rv := by
    intro rv cap hrv hcap
    unfold clampQ
    rw [max_eq_right (le_min hcap hrv)]
  refine ⟨?_, ?_, ?_, ?_, ?_, ?_, ?_, ?_, rfl⟩
  · intro rot dt rv hrv
    rw [hclamp rv 12 hrv (by norm_num)]
    rfl
  · intro rot dt rv hrv
    rw [hclamp rv 18 hrv (by norm_num)]
    rfl
  · intro rot dt rv
    unfold fanDiscRotationStep
    ring
  · intro rot dt rv
    unfold coolerFanRotationStep
    ring
  · intro rot t
    rfl
  · intro rot rot' t
    rfl
  · intro rot rot' rate dt
    unfold claimedDeltaStep
    ring
  · intro rot t t'
    show t * (14/5) - t' * (14/5) = (14/5) * (t - t')
    ring

/-- C9 amended witness: the fan-step equalities at a concrete nonnegative
live rate. -/
theorem rotation_kinematics_amended_witness :
    (0:ℚ) ≤ 6 ∧
      fanDiscRotationStep 0 (1/60) 6 = 0 + (1/60) * (5/2 + clampQ 6 0 12 * (12/100)) ∧
      coolerFanRotationStep 0 (1/60) 6 = 0 + (1/60) * (9/2 + clampQ 6 0 18 * (28/100)) :=
  ⟨by norm_num, rotation_kinematics_amended.1 0 (1/60) 6 (by norm_num),
    rotation_kinematics_amended.2.1 0 (1/60) 6 (by norm_num)⟩

/-! ## Mount effect control flow (C1)

The mount `useEffect` bodies, abstracted to their statement order.  In
`AssemblyExplodedScene` the `onReady` capture-API call precedes the cleanup
`return`; in `ThreeDashboard` the cleanup `return () => {...}` statement at
line 1786 comes first, and the `onReady` call (line 1823), the GLTF/HDR asset
loading and the overlay-controls setup follow it textually — in JavaScript no
statement after an executed `return` runs. -/

inductive EffectStep where
  | setupScene
  | startAnimateLoop
  | addResizeListener
  | cleanupReturn
  | exposeCaptureApi
  | loadAssets
  | setupOverlayControls
deriving DecidableEq

/-- Statement order of the `ThreeDashboard` mount effect body. -/
def threeDashboardMountBody : List EffectStep :=
  [EffectStep.setupScene, EffectStep.startAnimateLoop, EffectStep.addResizeListener,
    EffectStep.cleanupReturn, EffectStep.exposeCaptureApi, EffectStep.loadAssets,
    EffectStep.setupOverlayControls]

/-- Statement order of the `AssemblyExplodedScene` mount effect body. -/
def assemblyMountBody : List EffectStep :=
  [EffectStep.setupScene, EffectStep.startAnimateLoop, EffectStep.addResizeListener,
    EffectStep.exposeCaptureApi, EffectStep.cleanupReturn]

/-- JavaScript function-body semantics: the statements that actually execute
during one run of the effect are those preceding the first `return`. -/
def executedSteps (body : List EffectStep) : List EffectStep :=
  body.takeWhile (fun s => s ≠ EffectStep.cleanupReturn)

/-- How many times `onReady` is invoked during one (first, successful) mount. -/
def onReadyCallCount (body : List EffectStep) : ℕ :=
  (executedSteps body).count EffectStep.exposeCaptureApi

/-- C1: the `onReady` invocation exists in the `ThreeDashboard` source (count
1 in the body text) but sits after the effect's cleanup `return`, so it
executes zero times — `onReady` is never called on a `ThreeDashboard` mount,
contradicting the claim that every scene component invokes it exactly once;
`AssemblyExplodedScene` does invoke it exactly once, before its cleanup
return. -/
theorem onReady_dead_code_dashboard :
    onReadyCallCount threeDashboardMountBody = 0 ∧
      threeDashboardMountBody.count EffectStep.exposeCaptureApi = 1 ∧
      onReadyCallCount assemblyMountBody = 1 := by
  refine ⟨?_, ?_, ?_⟩ <;> rfl
